import Mathlib

/-!
Verification of the event-calendar core of Dynamic-Event-Calendar.

The definitions below are a shallow embedding of the TypeScript code in
src/src/components/Calendar.tsx (the Calendar component and the App root with
its event handlers). JavaScript records keyed by day strings become
association lists, Date values become integer day numbers, times of day are
parsed from their "HH:MM" strings, and localStorage becomes a history of
written strings whose last entry is the current content.
-/

namespace EventCal

/-- Category of an event, from the source union type of the strings
work, personal and other. -/
inductive Category where
| work
| personal
| other
deriving DecidableEq

/-- String form of a category, as the category is stored in the source. -/
def catStr : Category → String
| Category.work => "work"
| Category.personal => "personal"
| Category.other => "other"

/-- Event record, from the Event interface of the source. -/
structure Event where
  id : String
  title : String
  startTime : String
  endTime : String
  description : Option String
  category : Category
  color : Option String
deriving DecidableEq

/-- Mapping from day key to event list, embedding the TypeScript record
Record of String to Event array. JavaScript records have unique keys kept in
insertion order, so an association list is the direct image. -/
abbrev EventMap := List (String × List Event)

/-- Read of events[dateKey] with the source fallback to the empty list. -/
def getEvents (m : EventMap) (k : String) : List Event :=
  (m.lookup k).getD []

/-- Record assignment newEvents[k] = v: replace the value when the key is
present, otherwise append the key at the end, as JavaScript does. -/
def setDay (m : EventMap) (k : String) (v : List Event) : EventMap :=
  match m with
  | [] => [(k, v)]
  | (k1, v1) :: rest => if k1 = k then (k, v) :: rest else (k1, v1) :: setDay rest k v

/-- Record deletion, as in delete newEvents[dateKey]. -/
def removeKey (m : EventMap) (k : String) : EventMap :=
  m.filter (fun p => p.1 != k)

/-- Minutes after midnight denoted by an "HH:MM" string, or none when the
string is not such a time. This mirrors the source expression
new Date("2000-01-01T" ++ s): a malformed time yields an Invalid Date. -/
def timeToMinutes (s : String) : Option Nat :=
  match s.data with
  | [h1, h2, ':', m1, m2] =>
    if h1.isDigit && h2.isDigit && m1.isDigit && m2.isDigit then
      let h := (h1.toNat - 48) * 10 + (h2.toNat - 48)
      let mi := (m1.toNat - 48) * 10 + (m2.toNat - 48)
      if h < 24 && mi < 60 then some (h * 60 + mi) else none
    else none
  | _ => none

/-- hasTimeOverlap from the source: build Date values from both time ranges
and test start1 less than end2 and end1 greater than start2. Every comparison
against an Invalid Date is false in JavaScript, hence the fallback branch. -/
def hasTimeOverlap (e1 e2 : Event) : Bool :=
  match timeToMinutes e1.startTime, timeToMinutes e1.endTime,
        timeToMinutes e2.startTime, timeToMinutes e2.endTime with
  | some s1, some en1, some s2, some en2 => decide (s1 < en2) && decide (en1 > s2)
  | _, _, _, _ => false

/-- Payload of the save handler, the source type Omit of Event without id. -/
structure EventData where
  title : String
  startTime : String
  endTime : String
  description : Option String
  category : Category
  color : Option String
deriving DecidableEq

/-- Record built in handleSaveEvent: the id of the selected event when the
modal edits an existing event, otherwise the freshly generated random id. -/
def buildEvent (selectedEventId : Option String) (freshId : String) (d : EventData) : Event :=
  { id := selectedEventId.getD freshId, title := d.title, startTime := d.startTime,
    endTime := d.endTime, description := d.description, category := d.category,
    color := d.color }

/-- handleSaveEvent from the source. selectedEventId is the id of the selected
event when editing; freshId stands for the random id generated for a new
event. On overlap the handler alerts and returns with the mapping unchanged;
otherwise editing maps over the day list replacing the matching id, and
creation appends. -/
def handleSaveEvent (events : EventMap) (dateKey : String) (selectedEventId : Option String)
    (freshId : String) (eventData : EventData) : EventMap :=
  let existingEvents := getEvents events dateKey
  let newEvent := buildEvent selectedEventId freshId eventData
  let hasOverlap := existingEvents.any fun ev =>
    (ev.id != newEvent.id) && hasTimeOverlap ev newEvent
  if hasOverlap then events
  else
    match selectedEventId with
    | some sid =>
      setDay events dateKey (existingEvents.map fun ev => if ev.id = sid then newEvent else ev)
    | none => setDay events dateKey (existingEvents ++ [newEvent])

/-- handleDeleteEvent from the source: assign the filtered day list, then
delete the day key when the remaining list is empty. -/
def handleDeleteEvent (events : EventMap) (dateKey : String) (eventId : String) : EventMap :=
  let m1 := setDay events dateKey ((getEvents events dateKey).filter fun e => e.id != eventId)
  if (getEvents m1 dateKey).length = 0 then removeKey m1 dateKey else m1

/-- Drop location of the drag library. -/
structure DraggableLocation where
  droppableId : String
  index : Nat
deriving DecidableEq

/-- Drag result: destination is absent when the event was dropped outside
every day cell. -/
structure DropResult where
  source : DraggableLocation
  destination : Option DraggableLocation
deriving DecidableEq

/-- JavaScript array.splice(j, 0, x): insert x at index j, clamping to the end
when j exceeds the length. -/
def spliceInsert (l : List Event) (j : Nat) (x : Event) : List Event :=
  l.take j ++ x :: l.drop j

/-- Escape of one character inside a JSON string literal, as JSON.stringify
produces it. Control characters are left alone here; the well-formedness
predicate used by the round-trip claim excludes them. -/
def escChar (c : Char) : List Char :=
  if c = '\"' then ['\\', '\"']
  else if c = '\\' then ['\\', '\\']
  else [c]

/-- Escape of a whole string body. -/
def escList : List Char → List Char
  | [] => []
  | c :: cs => escChar c ++ escList cs

/-- JSON string literal for s. -/
def quoteJson (s : String) : List Char :=
  '\"' :: escList s.data ++ ['\"']

/-- Comma separated join, as JSON.stringify lays out array elements and
record fields. -/
def joinComma : List (List Char) → List Char
  | [] => []
  | [x] => x
  | x :: y :: xs => x ++ ',' :: joinComma (y :: xs)

/-- Field of a JSON object. -/
def encodeField (name value : String) : List Char :=
  quoteJson name ++ ':' :: quoteJson value

/-- JSON.stringify of one event. The construction order of the event object is
not visible in src, so the field order follows the persisted shape given in
the specification; absent optional fields are omitted, as JSON.stringify omits
undefined properties. -/
def encodeEvent (e : Event) : List Char :=
  '\x7b' :: (encodeField "id" e.id ++ ',' :: encodeField "title" e.title
    ++ ',' :: encodeField "startTime" e.startTime
    ++ ',' :: encodeField "endTime" e.endTime
    ++ (match e.description with
        | none => []
        | some d => ',' :: encodeField "description" d)
    ++ ',' :: encodeField "category" (catStr e.category)
    ++ (match e.color with
        | none => []
        | some c => ',' :: encodeField "color" c)
    ++ ['\x7d'])

/-- JSON.stringify of a day list. -/
def encodeDayList (l : List Event) : List Char :=
  '[' :: joinComma (l.map encodeEvent) ++ [']']

/-- JSON.stringify of the whole mapping. -/
def encodeTop (m : EventMap) : List Char :=
  '\x7b' :: joinComma (m.map fun p => quoteJson p.1 ++ ':' :: encodeDayList p.2) ++ ['\x7d']

/-- JSON.stringify of the mapping, as a string. -/
def jsonStringify (m : EventMap) : String :=
  String.mk (encodeTop m)

/-- saveEventsToStorage from the source: localStorage.setItem of the
serialized mapping, modelled as appending to the write history. -/
def saveEventsToStorage (log : List String) (events : EventMap) : List String :=
  log ++ [jsonStringify events]

/-- handleEventDragEnd from the source, acting on the mapping together with
the storage write history. A missing destination returns at once; a drop on
the same day and index returns at once; otherwise the element at the source
index is spliced out of the source list, the destination list is created when
absent, the element is spliced in at the destination index, and the new
mapping is saved. The drag library always reports a valid source index; the
out of range case is modelled as leaving the state unchanged. -/
def handleEventDragEnd (events : EventMap) (log : List String) (result : DropResult) :
    EventMap × List String :=
  match result.destination with
  | none => (events, log)
  | some destination =>
    let sourceDate := result.source.droppableId
    let destinationDate := destination.droppableId
    let eventIndex := result.source.index
    if sourceDate = destinationDate ∧ eventIndex = destination.index then (events, log)
    else
      match (getEvents events sourceDate).get? eventIndex with
      | none => (events, log)
      | some movedEvent =>
        let m1 := setDay events sourceDate ((getEvents events sourceDate).eraseIdx eventIndex)
        let newEvents := setDay m1 destinationDate
          (spliceInsert (getEvents m1 destinationDate) destination.index movedEvent)
        (newEvents, saveEventsToStorage log newEvents)

/-- Literal matching: consume lit from the front of the input. -/
def expect (lit input : List Char) : Option (List Char) :=
  match lit, input with
  | [], rest => some rest
  | c :: ls, d :: rest => if c = d then expect ls rest else none
  | _ :: _, [] => none

/-- Undo of escList: read characters up to the closing quote, returning the
body and the rest after the quote. -/
def unescList : List Char → Option (List Char × List Char)
  | [] => none
  | '\"' :: rest => some ([], rest)
  | '\\' :: c :: rest =>
    if c = '\"' ∨ c = '\\' then
      match unescList rest with
      | none => none
      | some (s, r) => some (c :: s, r)
    else none
  | c :: rest =>
    match unescList rest with
    | none => none
    | some (s, r) => some (c :: s, r)

/-- Parse of one JSON string literal. -/
def parseString (input : List Char) : Option (String × List Char) :=
  match input with
  | '\"' :: rest =>
    match unescList rest with
    | none => none
    | some (s, r) => some (String.mk s, r)
  | _ => none

/-- Parse of one named field, a known key then a string value. -/
def parseField (name : String) (input : List Char) : Option (String × List Char) :=
  match expect (quoteJson name ++ [':']) input with
  | none => none
  | some r => parseString r

/-- Category back from its stored string. -/
def catOfString (s : String) : Option Category :=
  if s = "work" then some Category.work
  else if s = "personal" then some Category.personal
  else if s = "other" then some Category.other
  else none

/-- Read of the optional color field and the closing brace of an event. -/
def parseColorEnd (input : List Char) : Option (Option String × List Char) :=
  match input with
  | '\x7d' :: rest => some (none, rest)
  | ',' :: rest =>
    match parseField "color" rest with
    | none => none
    | some (v, r) =>
      match r with
      | '\x7d' :: r2 => some (some v, r2)
      | _ => none
  | _ => none

/-- Parse of one serialized event: the four fixed fields, then the next key is
read and dispatched, since an optional description may precede the category
and an optional color may follow it. -/
def parseEvent (input : List Char) : Option (Event × List Char) :=
  match expect ['\x7b'] input with
  | none => none
  | some r0 =>
  match parseField "id" r0 with
  | none => none
  | some (idv, r1) =>
  match expect [','] r1 with
  | none => none
  | some r2 =>
  match parseField "title" r2 with
  | none => none
  | some (titlev, r3) =>
  match expect [','] r3 with
  | none => none
  | some r4 =>
  match parseField "startTime" r4 with
  | none => none
  | some (stv, r5) =>
  match expect [','] r5 with
  | none => none
  | some r6 =>
  match parseField "endTime" r6 with
  | none => none
  | some (etv, r7) =>
  match expect [','] r7 with
  | none => none
  | some r8 =>
  match parseString r8 with
  | none => none
  | some (key, r9) =>
  match expect [':'] r9 with
  | none => none
  | some r10 =>
  if key = "description" then
    match parseString r10 with
    | none => none
    | some (descv, r11) =>
    match expect [','] r11 with
    | none => none
    | some r12 =>
    match parseField "category" r12 with
    | none => none
    | some (catv, r13) =>
    match catOfString catv with
    | none => none
    | some cat =>
    match parseColorEnd r13 with
    | none => none
    | some (colorv, r14) =>
      some ({ id := idv, title := titlev, startTime := stv, endTime := etv,
              description := some descv, category := cat, color := colorv }, r14)
  else if key = "category" then
    match parseString r10 with
    | none => none
    | some (catv, r11) =>
    match catOfString catv with
    | none => none
    | some cat =>
    match parseColorEnd r11 with
    | none => none
    | some (colorv, r12) =>
      some ({ id := idv, title := titlev, startTime := stv, endTime := etv,
              description := none, category := cat, color := colorv }, r12)
  else none

/-- Parse of a serialized event array after its opening bracket; the fuel
bounds the number of elements. -/
def parseEventSeq (fuel : Nat) (input : List Char) : Option (List Event × List Char) :=
  match fuel with
  | 0 => none
  | fuel + 1 =>
    if input.head? = some ']' then some ([], input.tail)
    else
      match parseEvent input with
      | none => none
      | some (e, r) =>
        match r with
        | ',' :: r2 =>
          match parseEventSeq fuel r2 with
          | none => none
          | some (es, r3) => some (e :: es, r3)
        | ']' :: r2 => some ([e], r2)
        | _ => none

/-- Parse of the serialized key and day list pairs after the opening brace of
the mapping; the fuel bounds the number of pairs. -/
def parsePairSeq (fuel : Nat) (input : List Char) : Option (EventMap × List Char) :=
  match fuel with
  | 0 => none
  | fuel + 1 =>
    if input.head? = some '\x7d' then some ([], input.tail)
    else
      match parseString input with
      | none => none
      | some (k, r) =>
      match expect [':'] r with
      | none => none
      | some r2 =>
      match r2 with
      | '[' :: r3 =>
        match parseEventSeq (r3.length + 1) r3 with
        | none => none
        | some (l, r4) =>
          match r4 with
          | ',' :: r5 =>
            match parsePairSeq fuel r5 with
            | none => none
            | some (ps, r6) => some ((k, l) :: ps, r6)
          | '\x7d' :: r5 => some ([(k, l)], r5)
          | _ => none
      | _ => none

/-- JSON.parse of the persisted shape, over the character list. A mapping is
an opening brace, the pairs, a closing brace and nothing behind. -/
def parseTopChars (l : List Char) : Option EventMap :=
  match l with
  | '\x7b' :: rest =>
    match parsePairSeq (rest.length + 1) rest with
    | none => none
    | some (m, r) => if r = [] then some m else none
  | _ => none

/-- JSON.parse of the persisted mapping. JSON.parse can also return values of
other shapes, which the source would pass along untyped; those inputs never
arise from saveEventsToStorage, and the try catch fallback below covers the
failure outcome. -/
def parseTop (s : String) : Option EventMap :=
  parseTopChars s.data

/-- loadEventsFromStorage from the source: read the stored string and parse
it, falling back to the empty mapping when nothing is stored or parsing
fails. -/
def loadEventsFromStorage (log : List String) : EventMap :=
  match log.getLast? with
  | none => []
  | some s => (parseTop s).getD []

/-- Strings without control characters; on these the modelled stringify
agrees with JSON.stringify, which escapes characters below space. -/
def noCtrlB (s : String) : Bool :=
  s.data.all fun c => 32 ≤ c.toNat

/-- Well-formed event for persistence: every stored string field is free of
control characters. -/
def wellFormedEventB (e : Event) : Bool :=
  noCtrlB e.id && noCtrlB e.title && noCtrlB e.startTime && noCtrlB e.endTime
  && (match e.description with
      | none => true
      | some d => noCtrlB d)
  && (match e.color with
      | none => true
      | some c => noCtrlB c)

/-- Day key of the literal shape YYYY-MM-DD. -/
def dayKeyShapedB (s : String) : Bool :=
  match s.data with
  | [a, b, c, d, '-', e, f, '-', g, h] =>
    a.isDigit && b.isDigit && c.isDigit && d.isDigit
      && e.isDigit && f.isDigit && g.isDigit && h.isDigit
  | _ => false

/-- Well-formed mapping: date shaped keys and well-formed events. -/
def wellFormedMapB (m : EventMap) : Bool :=
  m.all fun p => dayKeyShapedB p.1 && p.2.all wellFormedEventB

/-- Leap year test of the proleptic Gregorian calendar, as Date implements
it. -/
def isLeap (y : Int) : Bool :=
  (y % 4 == 0 && y % 100 != 0) || y % 400 == 0

/-- Length of the zero-based month m of year y. -/
def monthLen (y : Int) (m : Nat) : Nat :=
  if m = 1 then (if isLeap y then 29 else 28)
  else if m = 3 ∨ m = 5 ∨ m = 8 ∨ m = 10 then 30
  else 31

/-- Days taken by the months before the zero-based month m of year y. -/
def cumMonth (y : Int) : Nat → Nat
  | 0 => 0
  | m + 1 => cumMonth y m + monthLen y m

/-- Days from 0000-01-01 to the first day of year y, negative for earlier
years. The quotient terms count the leap days of the years before y. -/
def daysBeforeYear (y : Int) : Int :=
  365 * y + (y + 3) / 4 - (y + 99) / 100 + (y + 399) / 400

/-- Day number of new Date(y, m, d): the month argument overflows into the
year and the day argument offsets linearly, exactly how the Date constructor
normalizes its arguments. -/
def civilToDays (y m d : Int) : Int :=
  daysBeforeYear ((12 * y + m) / 12)
    + (cumMonth ((12 * y + m) / 12) ((12 * y + m) % 12).toNat : Int) + (d - 1)

/-- Weekday index with 0 for Sunday, as Date.getDay returns it. The anchor is
checked by dow_sanity below: 2000-01-01 was a Saturday. -/
def dow (n : Int) : Nat :=
  ((n + 6) % 7).toNat

/-- getDaysInMonth from the source. The reference date enters only through its
year y and its zero-based month m. The source reads the length of the month as
new Date(y, m + 1, 0).getDate(); by civilToDays_month_succ that date is the
last day of month m, whose day-of-month is monthLen of the normalized month,
used here directly. The loop pushing consecutive dates becomes a map over a
range. -/
def getDaysInMonth (y m : Int) : List Int :=
  let firstDayOfMonth := civilToDays y m 1
  let daysInMonth := monthLen ((12 * y + m) / 12) ((12 * y + m) % 12).toNat
  let startingDayIndex := dow firstDayOfMonth
  let firstDay := civilToDays y m (1 - startingDayIndex)
  let totalDays := startingDayIndex + daysInMonth
  let numberOfWeeks := (totalDays + 6) / 7
  (List.range (numberOfWeeks * 7)).map fun i : Nat => firstDay + (i : Int)

/-- Sample event from 08:00 to 09:00. -/
def evA : Event :=
  { id := "a1", title := "Standup", startTime := "08:00", endTime := "09:00",
    description := none, category := Category.work, color := none }

/-- Sample event from 09:00 to 10:00, adjacent to evA. -/
def evB : Event :=
  { id := "b1", title := "Review", startTime := "09:00", endTime := "10:00",
    description := some "weekly", category := Category.personal, color := some "red" }

/-- Doubling of double quotes, the source replace of every quote by two. -/
def dupQuotes : List Char → List Char
  | [] => []
  | c :: cs => if c = '\"' then '\"' :: '\"' :: dupQuotes cs else c :: dupQuotes cs

/-- CSV quoting of one value, as the source template wraps the replaced value
in double quotes. -/
def csvQuote (v : String) : String :=
  String.mk ('\"' :: dupQuotes v.data ++ ['\"'])

/-- Header list of the CSV export. -/
def csvHeaders : List String :=
  ["id", "title", "startTime", "endTime", "description", "category"]

/-- Field access event[header] with the source fallback to the empty string
for a missing value. -/
def eventField (e : Event) (h : String) : String :=
  if h = "id" then e.id
  else if h = "title" then e.title
  else if h = "startTime" then e.startTime
  else if h = "endTime" then e.endTime
  else if h = "description" then e.description.getD ""
  else if h = "category" then catStr e.category
  else ""

/-- Join with a separator, as the JavaScript array join. -/
def joinWith (sep : String) : List String → String
  | [] => ""
  | [x] => x
  | x :: y :: xs => x ++ sep ++ joinWith sep (y :: xs)

/-- One CSV row of the export. -/
def csvRow (e : Event) : String :=
  joinWith "," (csvHeaders.map fun h => csvQuote (eventField e h))

/-- Two digit zero padded decimal. -/
def pad2 (n : Nat) : String :=
  if n < 10 then "0" ++ toString n else toString n

/-- Four digit zero padded decimal, as toISOString prints years of the usual
range. -/
def pad4 (n : Nat) : String :=
  if n < 10 then "000" ++ toString n
  else if n < 100 then "00" ++ toString n
  else if n < 1000 then "0" ++ toString n
  else toString n

/-- Day key "YYYY-MM-DD" of a civil date, as toISOString prints it; month1 is
one based. Negative years do not occur in the export range. -/
def dayKeyStr (y : Int) (month1 d : Nat) : String :=
  pad4 y.toNat ++ "-" ++ pad2 month1 ++ "-" ++ pad2 d

/-- Collection loop of handleExportEvents: walk the days of the current month
in order and append each day list present in the mapping. -/
def collectMonthEvents (events : EventMap) (y m : Int) : List Event :=
  (List.range (monthLen ((12 * y + m) / 12) ((12 * y + m) % 12).toNat)).flatMap
    fun i => getEvents events
      (dayKeyStr ((12 * y + m) / 12) (((12 * y + m) % 12).toNat + 1) (i + 1))

/-- Lines of the CSV export: the joined header first, then one row per
event. -/
def csvLines (events : EventMap) (y m : Int) : List String :=
  joinWith "," csvHeaders :: (collectMonthEvents events y m).map csvRow

/-- csvContent from the source: the lines joined by a newline. -/
def csvContent (events : EventMap) (y m : Int) : String :=
  joinWith "\n" (csvLines events y m)

/-- Split at newline characters, inverse of the newline join whenever no line
holds a newline; used to state the line count of the export. -/
def splitLines : List Char → List (List Char)
  | [] => [[]]
  | c :: cs =>
    if c = '\n' then [] :: splitLines cs
    else
      match splitLines cs with
      | [] => [[c]]
      | l :: ls => (c :: l) :: ls

/-- Sample mapping holding two events of March 2024 on distinct days. -/
def m7 : EventMap := [("2024-03-05", [evA]), ("2024-03-06", [evB])]

/-- Payload whose time range 08:30 to 09:30 overlaps evA. -/
def edOverlap : EventData :=
  { title := "Clash", startTime := "08:30", endTime := "09:30",
    description := none, category := Category.other, color := none }

/-- Payload matching evB without its id. -/
def edB : EventData :=
  { title := "Review", startTime := "09:00", endTime := "10:00",
    description := some "weekly", category := Category.personal, color := some "red" }

/-- Invariant from the specification: no day key maps to an empty list. -/
def noEmptyEntries (m : EventMap) : Prop :=
  ∀ p ∈ m, p.2 ≠ ([] : List Event)

instance (m : EventMap) : Decidable (noEmptyEntries m) := by
  unfold noEmptyEntries
  infer_instance

theorem lookup_setDay_self (m : EventMap) (k : String) (v : List Event) :
    (setDay m k v).lookup k = some v := by
  induction m with
  | nil => simp [setDay]
  | cons p rest ih =>
    obtain ⟨k1, v1⟩ := p
    by_cases h : k1 = k
    · subst h
      simp [setDay]
    · have hb : (k == k1) = false := by
        simp [beq_iff_eq]
        exact fun hk => h hk.symm
      simp [setDay, h, List.lookup, hb, ih]

theorem lookup_setDay_other (m : EventMap) (k k2 : String) (v : List Event) (h : k2 ≠ k) :
    (setDay m k v).lookup k2 = m.lookup k2 := by
  induction m with
  | nil =>
    have hb : (k2 == k) = false := by simpa [beq_iff_eq] using h
    simp [setDay, List.lookup, hb]
  | cons p rest ih =>
    obtain ⟨k1, v1⟩ := p
    by_cases h1 : k1 = k
    · subst h1
      have hb : (k2 == k1) = false := by simpa [beq_iff_eq] using h
      simp [setDay, List.lookup, hb]
    · simp [setDay, h1, List.lookup, ih]

theorem getEvents_setDay_self (m : EventMap) (k : String) (v : List Event) :
    getEvents (setDay m k v) k = v := by
  simp [getEvents, lookup_setDay_self]

theorem getEvents_setDay_other (m : EventMap) (k k2 : String) (v : List Event) (h : k2 ≠ k) :
    getEvents (setDay m k v) k2 = getEvents m k2 := by
  simp [getEvents, lookup_setDay_other m k k2 v h]

theorem lookup_removeKey_self (m : EventMap) (k : String) :
    (removeKey m k).lookup k = none := by
  induction m with
  | nil => simp [removeKey]
  | cons p rest ih =>
    obtain ⟨k1, v1⟩ := p
    by_cases h : k1 = k
    · subst h
      simpa [removeKey, List.filter] using ih
    · have hb : (k1 != k) = true := by simpa [bne_iff_ne] using h
      have hb2 : (k == k1) = false := by
        simp [beq_iff_eq]
        exact fun hk => h hk.symm
      simpa [removeKey, List.filter, hb, List.lookup, hb2] using ih

theorem mem_setDay (m : EventMap) (k : String) (v : List Event) (p : String × List Event)
    (hp : p ∈ setDay m k v) : p = (k, v) ∨ p ∈ m := by
  induction m with
  | nil =>
    simp [setDay] at hp
    exact Or.inl hp
  | cons q rest ih =>
    obtain ⟨k1, v1⟩ := q
    by_cases h : k1 = k
    · subst h
      simp [setDay] at hp
      rcases hp with hp | hp
      · exact Or.inl hp
      · exact Or.inr (List.mem_cons_of_mem _ hp)
    · simp [setDay, h] at hp
      rcases hp with hp | hp
      · exact Or.inr (by simp [hp])
      · rcases ih hp with h2 | h2
        · exact Or.inl h2
        · exact Or.inr (List.mem_cons_of_mem _ h2)

theorem dow_sanity : dow (civilToDays 2000 0 1) = 6 ∧ dow (civilToDays 2024 0 1) = 1 := by
  constructor
  · decide
  · decide

theorem daysBeforeYear_succ (y : Int) :
    daysBeforeYear (y + 1) = daysBeforeYear y + (if isLeap y then 366 else 365) := by
  unfold daysBeforeYear isLeap
  split
  · rename_i h
    simp only [Bool.or_eq_true, Bool.and_eq_true, beq_iff_eq, bne_iff_ne, ne_eq] at h
    omega
  · rename_i h
    simp only [Bool.or_eq_true, Bool.and_eq_true, beq_iff_eq, bne_iff_ne, ne_eq] at h
    omega

theorem cumMonth_twelve (y : Int) :
    cumMonth y 12 = if isLeap y then 366 else 365 := by
  by_cases h : isLeap y
  · simp [cumMonth, monthLen, h]
  · simp [cumMonth, monthLen, h]

theorem civilToDays_month_succ (y m : Int) :
    civilToDays y (m + 1) 1
      = civilToDays y m 1 + monthLen ((12 * y + m) / 12) ((12 * y + m) % 12).toNat := by
  unfold civilToDays
  have h0 : 0 ≤ (12 * y + m) % 12 := Int.emod_nonneg _ (by norm_num)
  have h1 : (12 * y + m) % 12 < 12 := Int.emod_lt_of_pos _ (by norm_num)
  have ht : 12 * y + (m + 1) = (12 * y + m) + 1 := by ring
  rw [ht]
  by_cases hc : (12 * y + m) % 12 = 11
  · have hd : ((12 * y + m) + 1) / 12 = (12 * y + m) / 12 + 1 := by omega
    have hm : ((12 * y + m) + 1) % 12 = 0 := by omega
    have hn : ((12 * y + m) % 12).toNat = 11 := by omega
    rw [hd, hm, hn, daysBeforeYear_succ ((12 * y + m) / 12)]
    have h12 : cumMonth ((12 * y + m) / 12) 11 + monthLen ((12 * y + m) / 12) 11
        = cumMonth ((12 * y + m) / 12) 12 := rfl
    have h365 := cumMonth_twelve ((12 * y + m) / 12)
    have hz : cumMonth ((12 * y + m) / 12 + 1) (0 : Int).toNat = 0 := rfl
    rw [hz]
    split <;> rename_i hleap
    · rw [if_pos hleap] at h365
      omega
    · rw [if_neg hleap] at h365
      omega
  · have hd : ((12 * y + m) + 1) / 12 = (12 * y + m) / 12 := by omega
    have hm : ((12 * y + m) + 1) % 12 = (12 * y + m) % 12 + 1 := by omega
    have hn : ((12 * y + m) % 12 + 1).toNat = ((12 * y + m) % 12).toNat + 1 := by omega
    rw [hd, hm, hn]
    have hcm : cumMonth ((12 * y + m) / 12) (((12 * y + m) % 12).toNat + 1)
        = cumMonth ((12 * y + m) / 12) (((12 * y + m) % 12).toNat)
          + monthLen ((12 * y + m) / 12) (((12 * y + m) % 12).toNat) := rfl
    rw [hcm]
    push_cast
    ring

theorem civilToDays_day (y m a : Int) :
    civilToDays y m a = civilToDays y m 1 + (a - 1) := by
  unfold civilToDays
  ring

/-- C6: the produced grid has the rounded-up number of covering weeks times
seven as its length, a multiple of seven; its entries are consecutive days
starting the weekday index of day one before day one, hence on a Sunday; and
every day of the reference month appears in it. -/
theorem c6_date_grid (y m : Int) :
    (getDaysInMonth y m).length
      = ((dow (civilToDays y m 1)
          + monthLen ((12 * y + m) / 12) ((12 * y + m) % 12).toNat + 6) / 7) * 7
    ∧ (getDaysInMonth y m).length % 7 = 0
    ∧ (∀ i, i < (getDaysInMonth y m).length →
        (getDaysInMonth y m).get? i
          = some (civilToDays y m 1 - dow (civilToDays y m 1) + i))
    ∧ dow (civilToDays y m 1 - dow (civilToDays y m 1)) = 0
    ∧ (∀ d : Nat, 1 ≤ d → d ≤ monthLen ((12 * y + m) / 12) ((12 * y + m) % 12).toNat →
        civilToDays y m (d : Int) ∈ getDaysInMonth y m) := by
  have hlen : (getDaysInMonth y m).length
      = ((dow (civilToDays y m 1)
          + monthLen ((12 * y + m) / 12) ((12 * y + m) % 12).toNat + 6) / 7) * 7 := by
    unfold getDaysInMonth
    rw [List.length_map, List.length_range]
  have hfirst : civilToDays y m (1 - (dow (civilToDays y m 1) : Int))
      = civilToDays y m 1 - dow (civilToDays y m 1) := by
    rw [civilToDays_day]
    ring
  refine ⟨hlen, ?_, ?_, ?_, ?_⟩
  · rw [hlen]
    exact Nat.mul_mod_left _ _
  · intro i hi
    rw [hlen] at hi
    unfold getDaysInMonth
    rw [List.get?_eq_getElem?, List.getElem?_map, List.getElem?_range hi]
    rw [hfirst]
    rfl
  · unfold dow
    have h0 : 0 ≤ (civilToDays y m 1 + 6) % 7 := Int.emod_nonneg _ (by norm_num)
    have h1 : (civilToDays y m 1 + 6) % 7 < 7 := Int.emod_lt_of_pos _ (by norm_num)
    omega
  · intro d hd1 hdn
    have hidx : dow (civilToDays y m 1) + d - 1
        < ((dow (civilToDays y m 1)
            + monthLen ((12 * y + m) / 12) ((12 * y + m) % 12).toNat + 6) / 7) * 7 := by
      omega
    have hmem : civilToDays y m (1 - (dow (civilToDays y m 1) : Int))
        + ((dow (civilToDays y m 1) + d - 1 : Nat) : Int) ∈ getDaysInMonth y m := by
      unfold getDaysInMonth
      exact List.mem_map.mpr
        ⟨dow (civilToDays y m 1) + d - 1, List.mem_range.mpr hidx, rfl⟩
    have heq : civilToDays y m (1 - (dow (civilToDays y m 1) : Int))
        + ((dow (civilToDays y m 1) + d - 1 : Nat) : Int) = civilToDays y m (d : Int) := by
      rw [hfirst, civilToDays_day y m (d : Int)]
      omega
    rw [← heq]
    exact hmem

theorem c6_date_grid_witness :
    ((0 < (getDaysInMonth 2024 2).length)
      ∧ 1 ≤ 15
      ∧ 15 ≤ monthLen ((12 * (2024 : Int) + 2) / 12) ((12 * (2024 : Int) + 2) % 12).toNat)
    ∧ ((getDaysInMonth 2024 2).get? 0
        = some (civilToDays 2024 2 1 - dow (civilToDays 2024 2 1) + 0)
      ∧ civilToDays 2024 2 ((15 : Nat) : Int) ∈ getDaysInMonth 2024 2) :=
  ⟨⟨by decide, by decide, by decide⟩,
    ⟨(c6_date_grid 2024 2).2.2.1 0 (by decide),
      (c6_date_grid 2024 2).2.2.2.2 15 (by decide) (by decide)⟩⟩

theorem splitLines_no_newline (l : List Char) (h : '\n' ∉ l) : splitLines l = [l] := by
  induction l with
  | nil => rfl
  | cons c cs ih =>
    have hc : c ≠ '\n' := by
      intro he
      exact h (by simp [he])
    have hcs : '\n' ∉ cs := fun hm => h (List.mem_cons_of_mem _ hm)
    simp only [splitLines, if_neg hc, ih hcs]

theorem splitLines_append (l rest : List Char) (h : '\n' ∉ l) :
    splitLines (l ++ '\n' :: rest) = l :: splitLines rest := by
  induction l with
  | nil => simp [splitLines]
  | cons c cs ih =>
    have hc : c ≠ '\n' := by
      intro he
      exact h (by simp [he])
    have hcs : '\n' ∉ cs := fun hm => h (List.mem_cons_of_mem _ hm)
    simp only [List.cons_append, splitLines, if_neg hc, List.append_eq, ih hcs]

theorem splitLines_joinWith (lines : List String) (hne : lines ≠ [])
    (h : ∀ l ∈ lines, '\n' ∉ l.data) :
    splitLines (joinWith "\n" lines).data = lines.map String.data := by
  induction lines with
  | nil => exact absurd rfl hne
  | cons x xs ih =>
    cases xs with
    | nil =>
      simp only [joinWith, List.map]
      exact splitLines_no_newline x.data (h x (by simp))
    | cons y ys =>
      have hdata : (joinWith "\n" (x :: y :: ys)).data
          = x.data ++ '\n' :: (joinWith "\n" (y :: ys)).data := by
        show (x ++ "\n" ++ joinWith "\n" (y :: ys)).data = _
        simp [String.data_append]
      rw [hdata, splitLines_append _ _ (h x (by simp)),
        ih (by simp) (fun l hl => h l (by simp [hl]))]
      rfl

/-- C7: the CSV lines are the exact header followed by one row per collected
event in day order then list order; each row is the comma join of the six
field values in header order, wrapped in double quotes; quoting doubles the
inner double quotes; an absent description reads as the empty string; and when
no line holds a newline, the joined output splits back into exactly one line
more than there are events. -/
theorem c7_csv_export (events : EventMap) (y m : Int) :
    csvLines events y m
      = "id,title,startTime,endTime,description,category"
        :: (collectMonthEvents events y m).map csvRow
    ∧ (∀ e : Event, csvRow e = joinWith ","
        [csvQuote e.id, csvQuote e.title, csvQuote e.startTime, csvQuote e.endTime,
          csvQuote (e.description.getD ""), csvQuote (catStr e.category)])
    ∧ (∀ v : String, (csvQuote v).data = '\"' :: dupQuotes v.data ++ ['\"'])
    ∧ (∀ e : Event, e.description = none → eventField e "description" = "")
    ∧ ((∀ l ∈ csvLines events y m, '\n' ∉ l.data) →
        (splitLines (csvContent events y m).data).length
          = 1 + (collectMonthEvents events y m).length) := by
  refine ⟨?_, ?_, ?_, ?_, ?_⟩
  · have hhead : joinWith "," csvHeaders
        = "id,title,startTime,endTime,description,category" := by decide
    unfold csvLines
    rw [hhead]
  · intro e
    rfl
  · intro v
    rfl
  · intro e h
    show e.description.getD "" = ""
    rw [h]
    rfl
  · intro h
    unfold csvContent
    rw [splitLines_joinWith (csvLines events y m) (by simp [csvLines]) h]
    simp [csvLines]
    omega

theorem c7_csv_export_witness :
    (∀ l ∈ csvLines m7 2024 2, '\n' ∉ l.data)
    ∧ (splitLines (csvContent m7 2024 2).data).length
      = 1 + (collectMonthEvents m7 2024 2).length
    ∧ (collectMonthEvents m7 2024 2).length = 2 :=
  ⟨by decide,
    (c7_csv_export m7 2024 2).2.2.2.2 (by decide),
    by decide⟩

/-- C1: for events carrying well-formed "HH:MM" times, hasTimeOverlap holds
exactly when the first event starts before the second ends and ends after the
second starts, comparing denoted times of day; and an event that ends exactly
when the other starts does not conflict. -/
theorem c1_overlap_iff (a b : Event) (sa ea sb eb : Nat)
    (hsa : timeToMinutes a.startTime = some sa) (hea : timeToMinutes a.endTime = some ea)
    (hsb : timeToMinutes b.startTime = some sb) (heb : timeToMinutes b.endTime = some eb) :
    (hasTimeOverlap a b = true ↔ (sa < eb ∧ ea > sb))
    ∧ (a.endTime = b.startTime → hasTimeOverlap a b = false) := by
  constructor
  · simp [hasTimeOverlap, hsa, hea, hsb, heb]
  · intro hab
    have heq : ea = sb := by
      rw [hab] at hea
      rw [hea] at hsb
      exact (Option.some_inj.mp hsb)
    subst heq
    simp [hasTimeOverlap, hsa, hea, hsb, heb]

theorem c1_overlap_iff_witness :
    (timeToMinutes evA.startTime = some 480 ∧ timeToMinutes evA.endTime = some 540
      ∧ timeToMinutes evB.startTime = some 540 ∧ timeToMinutes evB.endTime = some 600)
    ∧ ((hasTimeOverlap evA evB = true ↔ (480 < 600 ∧ 540 > 540))
      ∧ (evA.endTime = evB.startTime → hasTimeOverlap evA evB = false)) :=
  ⟨⟨by decide, by decide, by decide, by decide⟩,
    c1_overlap_iff evA evB 480 540 540 600 (by decide) (by decide) (by decide) (by decide)⟩

/-- C2: when the incoming event overlaps some event already on the day other
than the event with its own identifier, handleSaveEvent rejects the save and
returns the mapping unchanged. -/
theorem c2_overlap_rejected (events : EventMap) (dateKey : String)
    (selectedEventId : Option String) (freshId : String) (eventData : EventData)
    (h : ∃ ev ∈ getEvents events dateKey,
      ev.id ≠ (buildEvent selectedEventId freshId eventData).id ∧
      hasTimeOverlap ev (buildEvent selectedEventId freshId eventData) = true) :
    handleSaveEvent events dateKey selectedEventId freshId eventData = events := by
  obtain ⟨ev, hmem, hne, hov⟩ := h
  have hany : ((getEvents events dateKey).any fun e =>
      (e.id != (buildEvent selectedEventId freshId eventData).id) &&
      hasTimeOverlap e (buildEvent selectedEventId freshId eventData)) = true := by
    rw [List.any_eq_true]
    exact ⟨ev, hmem, by simp [hne, hov]⟩
  simp [handleSaveEvent, hany]

theorem c2_overlap_rejected_witness :
    (∃ ev ∈ getEvents [("2024-03-10", [evA])] "2024-03-10",
      ev.id ≠ (buildEvent none "c1" edOverlap).id ∧
      hasTimeOverlap ev (buildEvent none "c1" edOverlap) = true)
    ∧ handleSaveEvent [("2024-03-10", [evA])] "2024-03-10" none "c1" edOverlap
        = [("2024-03-10", [evA])] :=
  ⟨⟨evA, by decide, by decide, by decide⟩,
    c2_overlap_rejected _ _ _ _ _ ⟨evA, by decide, by decide, by decide⟩⟩

/-- C3: when the incoming event overlaps nothing else on the day, the day
identifiers are distinct, and the edit case targets an identifier present on
the day while the create case uses a fresh identifier, then saving and reading
the day back gives the list with the saved event replaced in place in the edit
case and appended in the create case, and the saved identifier occurs exactly
once. -/
theorem c3_upsert_get (events : EventMap) (dateKey : String) (selectedEventId : Option String)
    (freshId : String) (eventData : EventData)
    (hnodup : ((getEvents events dateKey).map Event.id).Nodup)
    (hid : match selectedEventId with
      | some sid => sid ∈ (getEvents events dateKey).map Event.id
      | none => freshId ∉ (getEvents events dateKey).map Event.id)
    (hov : ∀ ev ∈ getEvents events dateKey,
      ev.id ≠ (buildEvent selectedEventId freshId eventData).id →
      hasTimeOverlap ev (buildEvent selectedEventId freshId eventData) = false) :
    getEvents (handleSaveEvent events dateKey selectedEventId freshId eventData) dateKey
      = (match selectedEventId with
        | some sid => (getEvents events dateKey).map
            (fun ev => if ev.id = sid then buildEvent selectedEventId freshId eventData else ev)
        | none => getEvents events dateKey ++ [buildEvent selectedEventId freshId eventData])
    ∧ ((getEvents (handleSaveEvent events dateKey selectedEventId freshId eventData)
          dateKey).countP
        fun ev => ev.id == (buildEvent selectedEventId freshId eventData).id) = 1
    ∧ buildEvent selectedEventId freshId eventData
        ∈ getEvents (handleSaveEvent events dateKey selectedEventId freshId eventData) dateKey := by
  have hany : ((getEvents events dateKey).any fun ev =>
      (ev.id != (buildEvent selectedEventId freshId eventData).id) &&
      hasTimeOverlap ev (buildEvent selectedEventId freshId eventData)) = false := by
    rw [List.any_eq_false]
    intro ev hev
    by_cases hid2 : ev.id = (buildEvent selectedEventId freshId eventData).id
    · simp [hid2]
    · simp [hid2, hov ev hev hid2]
  cases selectedEventId with
  | some sid =>
    have hids : (buildEvent (some sid) freshId eventData).id = sid := rfl
    simp only at hid
    obtain ⟨ev0, hev0, hev0id⟩ := List.mem_map.mp hid
    have hres : getEvents (handleSaveEvent events dateKey (some sid) freshId eventData) dateKey
        = (getEvents events dateKey).map
          (fun ev => if ev.id = sid then buildEvent (some sid) freshId eventData else ev) := by
      simp [handleSaveEvent, hany, getEvents_setDay_self]
    refine ⟨hres, ?_, ?_⟩
    · rw [hres, List.countP_map]
      have hcongr : ((getEvents events dateKey).countP
          ((fun ev => ev.id == (buildEvent (some sid) freshId eventData).id) ∘
            (fun ev => if ev.id = sid then buildEvent (some sid) freshId eventData else ev)))
          = (getEvents events dateKey).countP (fun ev => ev.id == sid) := by
        apply List.countP_congr
        intro ev _
        by_cases h2 : ev.id = sid
        · simp [h2, hids]
        · simp [h2, hids]
      rw [hcongr]
      have hcnt : ((getEvents events dateKey).countP fun ev => ev.id == sid)
          = ((getEvents events dateKey).map Event.id).count sid := by
        rw [List.count, List.countP_map]
        rfl
      rw [hcnt]
      exact List.count_eq_one_of_mem hnodup hid
    · rw [hres]
      exact List.mem_map.mpr ⟨ev0, hev0, by simp [hev0id]⟩
  | none =>
    have hids : (buildEvent none freshId eventData).id = freshId := rfl
    simp only at hid
    have hres : getEvents (handleSaveEvent events dateKey none freshId eventData) dateKey
        = getEvents events dateKey ++ [buildEvent none freshId eventData] := by
      simp [handleSaveEvent, hany, getEvents_setDay_self]
    refine ⟨hres, ?_, ?_⟩
    · rw [hres, List.countP_append]
      have h0 : ((getEvents events dateKey).countP
          fun ev => ev.id == (buildEvent none freshId eventData).id) = 0 := by
        rw [List.countP_eq_zero]
        intro ev hev
        have : ev.id ≠ freshId := fun h => hid (List.mem_map.mpr ⟨ev, hev, h⟩)
        simp [hids, this]
      rw [h0]
      simp [hids]
    · rw [hres]
      exact List.mem_append_right _ (List.mem_singleton.mpr rfl)

theorem c3_upsert_get_witness :
    (((getEvents [("2024-03-10", [evA])] "2024-03-10").map Event.id).Nodup
      ∧ "b1" ∉ (getEvents [("2024-03-10", [evA])] "2024-03-10").map Event.id
      ∧ ∀ ev ∈ getEvents [("2024-03-10", [evA])] "2024-03-10",
          ev.id ≠ (buildEvent none "b1" edB).id →
          hasTimeOverlap ev (buildEvent none "b1" edB) = false)
    ∧ (getEvents (handleSaveEvent [("2024-03-10", [evA])] "2024-03-10" none "b1" edB) "2024-03-10"
        = getEvents [("2024-03-10", [evA])] "2024-03-10" ++ [buildEvent none "b1" edB]
      ∧ ((getEvents (handleSaveEvent [("2024-03-10", [evA])] "2024-03-10" none "b1" edB)
            "2024-03-10").countP fun ev => ev.id == (buildEvent none "b1" edB).id) = 1
      ∧ buildEvent none "b1" edB
          ∈ getEvents (handleSaveEvent [("2024-03-10", [evA])] "2024-03-10" none "b1" edB)
            "2024-03-10") :=
  ⟨⟨by decide, by decide, by decide⟩,
    c3_upsert_get [("2024-03-10", [evA])] "2024-03-10" none "b1" edB
      (by decide) (by decide) (by decide)⟩

/-- C4 counterexample: dragging the only event of 2024-03-10 to 2024-03-11
starts from a state with no empty entry and ends with 2024-03-10 still present
and mapped to the empty list, because handleEventDragEnd never removes an
emptied source day. -/
theorem c4_drag_leaves_empty_entry :
    noEmptyEntries [("2024-03-10", [evA])]
    ∧ List.lookup "2024-03-10"
        (handleEventDragEnd [("2024-03-10", [evA])] []
          { source := { droppableId := "2024-03-10", index := 0 },
            destination := some { droppableId := "2024-03-11", index := 0 } }).1
      = some ([] : List Event) := by
  constructor
  · decide
  · decide

/-- C4 as amended: the absence of empty day lists is preserved by the delete
handler, and by the save handler whenever the edit case targets a day that
still has events; the drag handler is excluded, since it can leave the source
day behind with an empty list. -/
theorem c4_no_empty_upsert_remove :
    (∀ (m : EventMap) (dateKey eventId : String),
      noEmptyEntries m → noEmptyEntries (handleDeleteEvent m dateKey eventId))
    ∧ (∀ (m : EventMap) (dateKey : String) (sel : Option String) (freshId : String)
        (ed : EventData),
      noEmptyEntries m → (sel = none ∨ getEvents m dateKey ≠ []) →
      noEmptyEntries (handleSaveEvent m dateKey sel freshId ed)) := by
  constructor
  · intro m dateKey eventId hm
    simp only [handleDeleteEvent, getEvents_setDay_self]
    split
    · intro p hp
      have hp2 := List.mem_filter.mp hp
      rcases mem_setDay _ _ _ _ hp2.1 with h | h
      · exfalso
        have : p.1 != dateKey := hp2.2
        rw [h] at this
        simp [bne_iff_ne] at this
      · exact hm p h
    · rename_i hlen
      intro p hp
      rcases mem_setDay _ _ _ _ hp with h | h
      · intro hnil
        apply hlen
        rw [h] at hnil
        simp at hnil
        simpa using hnil
      · exact hm p h
  · intro m dateKey sel freshId ed hm hsel
    simp only [handleSaveEvent]
    split
    · exact hm
    · cases sel with
      | some sid =>
        have hne : getEvents m dateKey ≠ [] := by
          rcases hsel with h | h
          · exact absurd h (by simp)
          · exact h
        intro p hp
        rcases mem_setDay _ _ _ _ hp with h | h
        · rw [h]
          simpa using hne
        · exact hm p h
      | none =>
        intro p hp
        rcases mem_setDay _ _ _ _ hp with h | h
        · rw [h]
          simp
        · exact hm p h

theorem c4_no_empty_upsert_remove_witness :
    (noEmptyEntries [("2024-03-10", [evA])]
      ∧ noEmptyEntries (handleDeleteEvent [("2024-03-10", [evA])] "2024-03-10" "a1"))
    ∧ ((none = (none : Option String) ∨ getEvents [("2024-03-10", [evA])] "2024-03-10" ≠ [])
      ∧ noEmptyEntries (handleSaveEvent [("2024-03-10", [evA])] "2024-03-10" none "b1" edB)) :=
  ⟨⟨by decide, c4_no_empty_upsert_remove.1 _ "2024-03-10" "a1" (by decide)⟩,
    ⟨Or.inl rfl,
      c4_no_empty_upsert_remove.2 _ "2024-03-10" none "b1" edB (by decide) (Or.inl rfl)⟩⟩

/-- C5: a drag with a valid source index that is not the identity relocation
removes the element at the source index, inserts exactly that element at the
destination index of the destination list, creating the destination entry when
it was absent, keeps the relative order of all untouched elements on both
days, leaves every other day untouched, and does all this without any overlap
check, since no overlap assumption is needed. -/
theorem c5_drag_moves_event (events : EventMap) (log : List String) (s d : String) (i j : Nat)
    (hi : i < (getEvents events s).length) (hne : ¬(s = d ∧ i = j)) (res : EventMap)
    (hres : res = (handleEventDragEnd events log
      { source := { droppableId := s, index := i },
        destination := some { droppableId := d, index := j } }).1) :
    (∀ k, k ≠ s → k ≠ d → getEvents res k = getEvents events k)
    ∧ (List.lookup d res).isSome = true
    ∧ (s ≠ d →
        getEvents res s = (getEvents events s).take i ++ (getEvents events s).drop (i + 1)
        ∧ getEvents res d = (getEvents events d).take j
            ++ (getEvents events s).get ⟨i, hi⟩ :: (getEvents events d).drop j)
    ∧ (s = d →
        getEvents res d
          = ((getEvents events s).take i ++ (getEvents events s).drop (i + 1)).take j
            ++ (getEvents events s).get ⟨i, hi⟩
              :: ((getEvents events s).take i ++ (getEvents events s).drop (i + 1)).drop j) := by
  have hget : (getEvents events s).get? i = some ((getEvents events s).get ⟨i, hi⟩) :=
    List.get?_eq_get hi
  have hres2 : res = setDay (setDay events s ((getEvents events s).eraseIdx i)) d
      (spliceInsert (getEvents (setDay events s ((getEvents events s).eraseIdx i)) d) j
        ((getEvents events s).get ⟨i, hi⟩)) := by
    rw [hres]
    simp only [handleEventDragEnd, hget, if_neg hne]
  have herase : (getEvents events s).eraseIdx i
      = (getEvents events s).take i ++ (getEvents events s).drop (i + 1) :=
    List.eraseIdx_eq_take_drop_succ _ _
  refine ⟨?_, ?_, ?_, ?_⟩
  · intro k hks hkd
    rw [hres2, getEvents_setDay_other _ _ _ _ hkd, getEvents_setDay_other _ _ _ _ hks]
  · rw [hres2, lookup_setDay_self]
    rfl
  · intro hsd
    constructor
    · rw [hres2, getEvents_setDay_other _ _ _ _ hsd, getEvents_setDay_self, herase]
    · rw [hres2, getEvents_setDay_self,
        getEvents_setDay_other _ _ _ _ (fun h => hsd h.symm)]
      rfl
  · intro hsd
    subst hsd
    rw [hres2, getEvents_setDay_self, getEvents_setDay_self, herase]
    rfl

theorem c5_drag_moves_event_witness :
    (0 < (getEvents [("2024-03-10", [evA, evB])] "2024-03-10").length
      ∧ ¬("2024-03-10" = "2024-03-11" ∧ 0 = 0))
    ∧ ((∀ k, k ≠ "2024-03-10" → k ≠ "2024-03-11" →
        getEvents (handleEventDragEnd [("2024-03-10", [evA, evB])] []
          { source := { droppableId := "2024-03-10", index := 0 },
            destination := some { droppableId := "2024-03-11", index := 0 } }).1 k
          = getEvents [("2024-03-10", [evA, evB])] k)
      ∧ (List.lookup "2024-03-11"
          (handleEventDragEnd [("2024-03-10", [evA, evB])] []
            { source := { droppableId := "2024-03-10", index := 0 },
              destination := some { droppableId := "2024-03-11", index := 0 } }).1).isSome
          = true) :=
  ⟨⟨by decide, by decide⟩,
    ⟨(c5_drag_moves_event [("2024-03-10", [evA, evB])] [] "2024-03-10" "2024-03-11" 0 0
        (by decide) (by decide) _ rfl).1,
      (c5_drag_moves_event [("2024-03-10", [evA, evB])] [] "2024-03-10" "2024-03-11" 0 0
        (by decide) (by decide) _ rfl).2.1⟩⟩

/-- C9: dropping an event on its own day at its own index is a no-op: the
mapping and the storage history are returned untouched. -/
theorem c9_same_position_noop (events : EventMap) (log : List String) (day : String) (i : Nat) :
    handleEventDragEnd events log
      { source := { droppableId := day, index := i },
        destination := some { droppableId := day, index := i } } = (events, log) := by
  simp [handleEventDragEnd]

/-- C10: a drag without destination leaves the mapping unchanged and performs
no storage write. -/
theorem c10_no_destination_noop (events : EventMap) (log : List String)
    (src : DraggableLocation) :
    handleEventDragEnd events log { source := src, destination := none } = (events, log) := rfl

theorem expect_append (lit rest : List Char) : expect lit (lit ++ rest) = some rest := by
  induction lit with
  | nil => rfl
  | cons c ls ih => simp [expect, ih]

theorem expect_cons (c : Char) (t : List Char) : expect [c] (c :: t) = some t := by
  simp [expect]

theorem unescList_escList (s rest : List Char) :
    unescList (escList s ++ '\"' :: rest) = some (s, rest) := by
  induction s with
  | nil => simp [escList, unescList]
  | cons c cs ih =>
    by_cases h1 : c = '\"'
    · subst h1
      simp [escList, escChar, unescList, ih]
    · by_cases h2 : c = '\\'
      · subst h2
        simp [escList, escChar, unescList, ih, h1]
      · simp [escList, escChar, unescList, h1, h2, ih]

theorem parseString_quoteJson (s : String) (rest : List Char) :
    parseString (quoteJson s ++ rest) = some (s, rest) := by
  have hshape : quoteJson s ++ rest = '\"' :: (escList s.data ++ '\"' :: rest) := by
    simp [quoteJson]
  rw [hshape]
  simp [parseString, unescList_escList]

theorem parseField_round (name value : String) (rest : List Char) :
    parseField name (quoteJson name ++ ':' :: (quoteJson value ++ rest))
      = some (value, rest) := by
  unfold parseField
  have hshape : quoteJson name ++ ':' :: (quoteJson value ++ rest)
      = (quoteJson name ++ [':']) ++ (quoteJson value ++ rest) := by
    simp
  rw [hshape, expect_append]
  exact parseString_quoteJson value rest

theorem catOfString_catStr (c : Category) : catOfString (catStr c) = some c := by
  cases c <;> rfl

theorem parseColorEnd_none (t : List Char) : parseColorEnd ('\x7d' :: t) = some (none, t) := rfl

theorem parseColorEnd_some (c : String) (t : List Char) :
    parseColorEnd (',' :: (quoteJson "color" ++ ':' :: (quoteJson c ++ '\x7d' :: t)))
      = some (some c, t) := by
  simp [parseColorEnd, parseField_round]

theorem parseEvent_encodeEvent (e : Event) (rest : List Char) :
    parseEvent (encodeEvent e ++ rest) = some (e, rest) := by
  obtain ⟨idv, titlev, stv, etv, desc, cat, col⟩ := e
  cases desc with
  | none =>
    cases col with
    | none =>
      simp [encodeEvent, encodeField, parseEvent, expect_cons, parseField_round,
        parseString_quoteJson, catOfString_catStr, parseColorEnd_none, parseColorEnd_some]
    | some c =>
      simp [encodeEvent, encodeField, parseEvent, expect_cons, parseField_round,
        parseString_quoteJson, catOfString_catStr, parseColorEnd_none, parseColorEnd_some]
  | some d =>
    cases col with
    | none =>
      simp [encodeEvent, encodeField, parseEvent, expect_cons, parseField_round,
        parseString_quoteJson, catOfString_catStr, parseColorEnd_none, parseColorEnd_some]
    | some c =>
      simp [encodeEvent, encodeField, parseEvent, expect_cons, parseField_round,
        parseString_quoteJson, catOfString_catStr, parseColorEnd_none, parseColorEnd_some]

theorem head_encodeEvent_append (e : Event) (t : List Char) :
    (encodeEvent e ++ t).head? = some '\x7b' := by
  unfold encodeEvent
  rfl

theorem head_quoteJson_append (s : String) (t : List Char) :
    (quoteJson s ++ t).head? = some '\"' := by
  unfold quoteJson
  rfl

theorem encodeEvent_length_pos (e : Event) : 0 < (encodeEvent e).length := by
  unfold encodeEvent
  simp

theorem length_joinComma_events (l : List Event) :
    l.length ≤ (joinComma (l.map encodeEvent)).length := by
  induction l with
  | nil => simp [joinComma]
  | cons e es ih =>
    cases es with
    | nil =>
      simpa [joinComma] using encodeEvent_length_pos e
    | cons y ys =>
      have h1 := encodeEvent_length_pos e
      have : joinComma ((e :: y :: ys).map encodeEvent)
          = encodeEvent e ++ ',' :: joinComma ((y :: ys).map encodeEvent) := rfl
      rw [this]
      simp only [List.length_append, List.length_cons]
      simp only [List.length_cons] at ih ⊢
      omega

theorem parseEventSeq_joinComma (l : List Event) (rest : List Char) (fuel : Nat)
    (hf : l.length < fuel) :
    parseEventSeq fuel (joinComma (l.map encodeEvent) ++ ']' :: rest) = some (l, rest) := by
  induction l generalizing fuel rest with
  | nil =>
    cases fuel with
    | zero => omega
    | succ f => simp [joinComma, parseEventSeq]
  | cons e es ih =>
    cases fuel with
    | zero => omega
    | succ f =>
      cases es with
      | nil =>
        have hshape : joinComma ((e :: ([] : List Event)).map encodeEvent) ++ ']' :: rest
            = encodeEvent e ++ ']' :: rest := rfl
        rw [hshape]
        simp only [parseEventSeq, head_encodeEvent_append, parseEvent_encodeEvent]
        rw [if_neg (by decide)]
      | cons y ys =>
        have hshape : joinComma ((e :: y :: ys).map encodeEvent) ++ ']' :: rest
            = encodeEvent e ++ ',' :: (joinComma ((y :: ys).map encodeEvent) ++ ']' :: rest) := by
          show (encodeEvent e ++ ',' :: joinComma ((y :: ys).map encodeEvent)) ++ ']' :: rest = _
          simp
        rw [hshape]
        simp only [parseEventSeq, head_encodeEvent_append, parseEvent_encodeEvent]
        rw [if_neg (by decide)]
        rw [ih rest f (by simp only [List.length_cons] at hf ⊢; omega)]

theorem length_joinComma_pairs (m : EventMap) :
    m.length ≤ (joinComma (m.map fun p => quoteJson p.1 ++ ':' :: encodeDayList p.2)).length := by
  induction m with
  | nil => simp [joinComma]
  | cons p ps ih =>
    have hq : 0 < (quoteJson p.1 ++ ':' :: encodeDayList p.2).length := by
      simp [quoteJson]
    cases ps with
    | nil =>
      show (p :: []).length ≤ (joinComma [quoteJson p.1 ++ ':' :: encodeDayList p.2]).length
      simp only [joinComma, List.length_cons, List.length_append, List.length_nil]
      omega
    | cons q qs =>
      have hshape : joinComma ((p :: q :: qs).map fun r => quoteJson r.1 ++ ':' :: encodeDayList r.2)
          = (quoteJson p.1 ++ ':' :: encodeDayList p.2)
            ++ ',' :: joinComma ((q :: qs).map fun r => quoteJson r.1 ++ ':' :: encodeDayList r.2) := rfl
      rw [hshape]
      simp only [List.length_append, List.length_cons]
      simp only [List.length_cons] at ih ⊢
      omega

theorem parsePairSeq_joinComma (m : EventMap) (rest : List Char) (fuel : Nat)
    (hf : m.length < fuel) :
    parsePairSeq fuel
      (joinComma (m.map fun p => quoteJson p.1 ++ ':' :: encodeDayList p.2) ++ '\x7d' :: rest)
      = some (m, rest) := by
  induction m generalizing fuel rest with
  | nil =>
    cases fuel with
    | zero => omega
    | succ f => simp [joinComma, parsePairSeq]
  | cons p ps ih =>
    obtain ⟨k, l⟩ := p
    cases fuel with
    | zero => omega
    | succ f =>
      cases ps with
      | nil =>
        have hshape : joinComma (((k, l) :: ([] : EventMap)).map
              fun p => quoteJson p.1 ++ ':' :: encodeDayList p.2) ++ '\x7d' :: rest
            = quoteJson k ++ ':' :: ('[' :: (joinComma (l.map encodeEvent) ++ ']' :: '\x7d' :: rest)) := by
          show (quoteJson k ++ ':' :: encodeDayList l) ++ '\x7d' :: rest = _
          simp [encodeDayList]
        rw [hshape]
        simp only [parsePairSeq, head_quoteJson_append, parseString_quoteJson, expect_cons]
        rw [if_neg (by decide)]
        have hfl : l.length
            < (joinComma (l.map encodeEvent) ++ ']' :: '\x7d' :: rest).length + 1 := by
          have h1 := length_joinComma_events l
          simp only [List.length_append, List.length_cons]
          omega
        rw [parseEventSeq_joinComma l ('\x7d' :: rest) _ hfl]
        rfl
      | cons q qs =>
        have hshape : joinComma (((k, l) :: q :: qs).map
              fun p => quoteJson p.1 ++ ':' :: encodeDayList p.2) ++ '\x7d' :: rest
            = quoteJson k ++ ':' :: ('[' :: (joinComma (l.map encodeEvent)
                ++ ']' :: ',' :: (joinComma ((q :: qs).map
                    fun p => quoteJson p.1 ++ ':' :: encodeDayList p.2) ++ '\x7d' :: rest))) := by
          show ((quoteJson k ++ ':' :: encodeDayList l)
              ++ ',' :: joinComma ((q :: qs).map
                  fun p => quoteJson p.1 ++ ':' :: encodeDayList p.2)) ++ '\x7d' :: rest = _
          simp [encodeDayList]
        rw [hshape]
        simp only [parsePairSeq, head_quoteJson_append, parseString_quoteJson, expect_cons]
        rw [if_neg (by decide)]
        have hfl : l.length < (joinComma (l.map encodeEvent)
            ++ ']' :: ',' :: (joinComma ((q :: qs).map
                fun p => quoteJson p.1 ++ ':' :: encodeDayList p.2)
              ++ '\x7d' :: rest)).length + 1 := by
          have h1 := length_joinComma_events l
          simp only [List.length_append, List.length_cons]
          omega
        rw [parseEventSeq_joinComma l (',' :: (joinComma ((q :: qs).map
            fun p => quoteJson p.1 ++ ':' :: encodeDayList p.2) ++ '\x7d' :: rest)) _ hfl]
        show (match parsePairSeq f (joinComma ((q :: qs).map
            fun p => quoteJson p.1 ++ ':' :: encodeDayList p.2) ++ '\x7d' :: rest) with
          | none => none
          | some (ps, r6) => some ((k, l) :: ps, r6)) = some ((k, l) :: q :: qs, rest)
        rw [ih rest f (by simp only [List.length_cons] at hf ⊢; omega)]

theorem parseTop_jsonStringify (m : EventMap) : parseTop (jsonStringify m) = some m := by
  show parseTopChars (encodeTop m) = some m
  have hshape : encodeTop m
      = '\x7b' :: (joinComma (m.map fun p => quoteJson p.1 ++ ':' :: encodeDayList p.2)
          ++ '\x7d' :: []) := rfl
  rw [hshape]
  simp only [parseTopChars]
  have hfl : m.length
      < (joinComma (m.map fun p => quoteJson p.1 ++ ':' :: encodeDayList p.2)
          ++ '\x7d' :: []).length + 1 := by
    have h1 := length_joinComma_pairs m
    simp only [List.length_append, List.length_cons, List.length_nil]
    omega
  rw [parsePairSeq_joinComma m [] _ hfl]
  rfl

/-- C8: saving a well-formed mapping and loading it back returns the very same
mapping; well-formedness asks for date shaped keys and control free strings,
on which the modelled serialization is the JSON.stringify output. -/
theorem c8_save_load_roundtrip (log : List String) (m : EventMap)
    (hwf : wellFormedMapB m = true) :
    loadEventsFromStorage (saveEventsToStorage log m) = m := by
  unfold saveEventsToStorage loadEventsFromStorage
  rw [List.getLast?_concat]
  simp [parseTop_jsonStringify]

theorem c8_save_load_roundtrip_witness :
    wellFormedMapB [("2024-03-10", [evA, evB])] = true
    ∧ loadEventsFromStorage
        (saveEventsToStorage [] [("2024-03-10", [evA, evB])]) = [("2024-03-10", [evA, evB])] :=
  ⟨by decide, c8_save_load_roundtrip [] [("2024-03-10", [evA, evB])] (by decide)⟩

end EventCal
